import Mathlib

/-!
Verification of the M306 MPC settings/autotune command handler
(`src/Marlin/src/gcode/temp/M306.cpp`) against its specification.

The handler's data model (per-hotend MPC coefficient records), the command
dispatch (`GcodeSuite::M306`) and the settings reporter
(`GcodeSuite::M306_report`) are embedded as executable Lean definitions.
Compile-time configuration (EXTRUDERS, MPC_INCLUDE_FAN, CAN_HOST /
CAN_TOOLHEAD, MARLIN_SMALL_BUILD) is modelled by an explicit `Cfg` record;
the builds considered always have MPCTEMP and MPC_AUTOTUNE enabled, which
is the configuration the specification describes.

Collaborators that are not part of the given source (the g-code tokenizer,
the float printer `p_float_t`, the `MPC_t` accessors from
`module/temperature.h`, the configured heater-power constant) are modelled
from the specification; each such definition carries a doc comment starting
with `Modelled from the spec:`.
-/

abbrev Line := List Char

/-! ## Decimal digits of natural numbers -/

/-- Decimal digits with explicit recursion fuel (structural recursion so
that the kernel can evaluate it). -/
def digsOfFuel : Nat → Nat → List Nat
  | 0, n => [n]
  | fuel + 1, n => if n < 10 then [n] else digsOfFuel fuel (n / 10) ++ [n % 10]

/-- Decimal digits of a natural number, most significant digit first. -/
def digsOf (n : Nat) : List Nat := digsOfFuel n n

theorem digsOfFuel_congr :
    ∀ f1 f2 n, n < 10 ^ (f1 + 1) → n < 10 ^ (f2 + 1) →
      digsOfFuel f1 n = digsOfFuel f2 n := by
  intro f1
  induction f1 with
  | zero =>
    intro f2 n h1 h2
    have hn : n < 10 := by simpa using h1
    cases f2 with
    | zero => rfl
    | succ g => simp [digsOfFuel, hn]
  | succ f ih =>
    intro f2 n h1 h2
    by_cases hn : n < 10
    · cases f2 with
      | zero => simp [digsOfFuel, hn]
      | succ g => simp [digsOfFuel, hn]
    · have hf2 : 1 ≤ f2 := by
        by_contra hc
        have : f2 = 0 := by omega
        rw [this] at h2
        simp at h2
        omega
      obtain ⟨g, rfl⟩ : ∃ g, f2 = g + 1 := ⟨f2 - 1, by omega⟩
      have hd1 : n / 10 < 10 ^ (f + 1) := by
        have h10 : (0:Nat) < 10 := by norm_num
        rw [Nat.div_lt_iff_lt_mul h10]
        calc n < 10 ^ (f + 1 + 1) := h1
          _ = 10 ^ (f + 1) * 10 := by rw [pow_succ]
      have hd2 : n / 10 < 10 ^ (g + 1) := by
        have h10 : (0:Nat) < 10 := by norm_num
        rw [Nat.div_lt_iff_lt_mul h10]
        calc n < 10 ^ (g + 1 + 1) := h2
          _ = 10 ^ (g + 1) * 10 := by rw [pow_succ]
      simp only [digsOfFuel, if_neg hn]
      rw [ih g (n / 10) hd1 hd2]

theorem lt_ten_pow_self (n : Nat) : n < 10 ^ (n + 1) :=
  lt_of_lt_of_le (Nat.lt_pow_self (by norm_num) n) (Nat.pow_le_pow_right (by norm_num) (by omega))

/-- The recursive unfolding of `digsOf`. -/
theorem digsOf_eq (n : Nat) :
    digsOf n = if n < 10 then [n] else digsOf (n / 10) ++ [n % 10] := by
  by_cases hn : n < 10
  · rw [if_pos hn, digsOf]
    cases n with
    | zero => rfl
    | succ m => simp [digsOfFuel, hn]
  · rw [if_neg hn, digsOf, digsOf]
    obtain ⟨m, rfl⟩ : ∃ m, n = m + 1 := ⟨n - 1, by omega⟩
    simp only [digsOfFuel, if_neg hn]
    congr 1
    exact digsOfFuel_congr m ((m + 1) / 10) ((m + 1) / 10)
      (by
        have h10 : (0:Nat) < 10 := by norm_num
        rw [Nat.div_lt_iff_lt_mul h10]
        calc m + 1 < 10 ^ (m + 1 + 1) := lt_ten_pow_self (m + 1)
          _ = 10 ^ (m + 1) * 10 := by rw [pow_succ])
      (lt_ten_pow_self _)

/-- Value of a most-significant-first digit list. -/
def valOfDigs (l : List Nat) : Nat :=
  l.foldl (fun a d => 10 * a + d) 0

theorem foldl_digs (a : Nat) (l : List Nat) :
    l.foldl (fun a d => 10 * a + d) a = a * 10 ^ l.length + valOfDigs l := by
  induction l generalizing a with
  | nil => simp [valOfDigs]
  | cons d t ih =>
    simp only [List.foldl_cons, valOfDigs, List.length_cons]
    rw [ih (10 * a + d), ih (10 * 0 + d)]
    ring

theorem valOfDigs_append (l₁ l₂ : List Nat) :
    valOfDigs (l₁ ++ l₂) = valOfDigs l₁ * 10 ^ l₂.length + valOfDigs l₂ := by
  simp only [valOfDigs, List.foldl_append]
  rw [foldl_digs]
  rfl

theorem valOfDigs_digsOf (n : Nat) : valOfDigs (digsOf n) = n := by
  induction n using Nat.strong_induction_on with
  | _ n ih =>
    rw [digsOf_eq]
    split
    · simp [valOfDigs]
    · rw [valOfDigs_append, ih (n / 10) (by omega)]
      simp only [valOfDigs, List.length_cons, List.length_nil, List.foldl]
      omega

theorem digsOf_lt_ten (n : Nat) : ∀ d ∈ digsOf n, d < 10 := by
  induction n using Nat.strong_induction_on with
  | _ n ih =>
    rw [digsOf_eq]
    split
    · intro d hd
      simp only [List.mem_singleton] at hd
      omega
    · intro d hd
      rcases List.mem_append.mp hd with h | h
      · exact ih (n / 10) (by omega) d h
      · simp only [List.mem_singleton] at h
        omega

theorem digsOf_ne_nil (n : Nat) : digsOf n ≠ [] := by
  rw [digsOf_eq]
  split
  · simp
  · simp

theorem digsOf_length_le (n k : Nat) (hk : 1 ≤ k) (h : n < 10 ^ k) :
    (digsOf n).length ≤ k := by
  induction n using Nat.strong_induction_on generalizing k with
  | _ n ih =>
    rw [digsOf_eq]
    split
    · simpa using hk
    · have hk2 : 2 ≤ k := by
        by_contra hc
        have hk1 : k = 1 := by omega
        rw [hk1] at h
        simp at h
        omega
      have hdiv : n / 10 < 10 ^ (k - 1) := by
        have h10 : (0:Nat) < 10 := by norm_num
        rw [Nat.div_lt_iff_lt_mul h10]
        have : 10 ^ (k - 1) * 10 = 10 ^ k := by
          rw [← pow_succ]
          congr 1
          omega
        omega
      have := ih (n / 10) (by omega) (k - 1) (by omega) hdiv
      simp only [List.length_append, List.length_cons, List.length_nil]
      omega

theorem digsOf_inj {a b : Nat} (h : digsOf a = digsOf b) : a = b := by
  have := congrArg valOfDigs h
  rwa [valOfDigs_digsOf, valOfDigs_digsOf] at this

/-! ## Digit characters -/

def charOfDig (d : Nat) : Char := Char.ofNat (48 + d)

def digChars (n : Nat) : Line := (digsOf n).map charOfDig

def digOfChar (c : Char) : Option Nat :=
  if 48 ≤ c.toNat ∧ c.toNat ≤ 57 then some (c.toNat - 48) else none

theorem charOfDig_toNat {d : Nat} (h : d < 10) : (charOfDig d).toNat = 48 + d := by
  interval_cases d <;> rfl

theorem digOfChar_charOfDig {d : Nat} (h : d < 10) :
    digOfChar (charOfDig d) = some d := by
  interval_cases d <;> rfl

theorem charOfDig_ne_space {d : Nat} (h : d < 10) : charOfDig d ≠ ' ' := by
  interval_cases d <;> decide

theorem charOfDig_ne_dot {d : Nat} (h : d < 10) : charOfDig d ≠ '.' := by
  interval_cases d <;> decide

theorem charOfDig_ne_dash {d : Nat} (h : d < 10) : charOfDig d ≠ '-' := by
  interval_cases d <;> decide

theorem digChars_inj {a b : Nat} (h : digChars a = digChars b) : a = b := by
  apply digsOf_inj
  have ha : digsOf a = (digChars a).map (fun c => c.toNat - 48) := by
    simp only [digChars, List.map_map]
    rw [List.map_congr_left (fun d hd => ?_)]
    · exact (List.map_id (digsOf a)).symm
    · simp only [Function.comp_apply, id_eq]
      rw [charOfDig_toNat (digsOf_lt_ten a d hd)]
      omega
  have hb : digsOf b = (digChars b).map (fun c => c.toNat - 48) := by
    simp only [digChars, List.map_map]
    rw [List.map_congr_left (fun d hd => ?_)]
    · exact (List.map_id (digsOf b)).symm
    · simp only [Function.comp_apply, id_eq]
      rw [charOfDig_toNat (digsOf_lt_ten b d hd)]
      omega
  rw [ha, hb, h]

theorem digChars_no_space (n : Nat) : ∀ c ∈ digChars n, c ≠ ' ' := by
  intro c hc
  rcases List.mem_map.mp hc with ⟨d, hd, rfl⟩
  exact charOfDig_ne_space (digsOf_lt_ten n d hd)

/-! ## Fixed-decimal rendering and parsing -/

/-- Modelled from the spec: the serial float printer `p_float_t` (from
`libs/numtostr.h`, not part of the given sources) renders a value with a
fixed number of decimal places, rounding to the nearest representable
value.  `roundScaled x d` is the magnitude scaled by `10^d` and rounded. -/
def roundScaled (x : ℚ) (d : Nat) : Nat :=
  (⌊|x| * 10 ^ d + 1 / 2⌋).toNat

/-- Modelled from the spec: fixed-decimal rendering with `d` decimal
places, as used for every numeric field of the canonical settings line. -/
def fmtFixed (x : ℚ) (d : Nat) : Line :=
  (if x < 0 then ['-'] else []) ++ digChars (roundScaled x d / 10 ^ d) ++
    (if d = 0 then [] else
      '.' :: (List.replicate (d - (digsOf (roundScaled x d % 10 ^ d)).length) '0' ++
        digChars (roundScaled x d % 10 ^ d)))

/-- The rational value denoted by the fixed-decimal rendering of `x`. -/
def fixedVal (x : ℚ) (d : Nat) : ℚ :=
  (if x < 0 then -1 else 1) * (roundScaled x d : ℚ) / 10 ^ d

/-- Parse a nonempty run of decimal digit characters. -/
def digsOfChars : Line → Option (List Nat)
  | [] => some []
  | c :: t =>
    match digOfChar c, digsOfChars t with
    | some d, some ds => some (d :: ds)
    | _, _ => none

theorem digsOfChars_append {a b : Line} {da db : List Nat}
    (ha : digsOfChars a = some da) (hb : digsOfChars b = some db) :
    digsOfChars (a ++ b) = some (da ++ db) := by
  induction a generalizing da with
  | nil =>
    simp only [digsOfChars] at ha
    cases ha
    simpa using hb
  | cons c t ih =>
    simp only [digsOfChars, List.append_eq] at ha ⊢
    cases hdc : digOfChar c with
    | none => rw [hdc] at ha; simp at ha
    | some d =>
      rw [hdc] at ha
      cases hdt : digsOfChars t with
      | none => rw [hdt] at ha; simp at ha
      | some ds =>
        rw [hdt] at ha
        simp only [Option.some.injEq] at ha
        rw [ih hdt]
        simp [← ha]

theorem digsOfChars_digChars (l : List Nat) (h : ∀ d ∈ l, d < 10) :
    digsOfChars (l.map charOfDig) = some l := by
  induction l with
  | nil => rfl
  | cons d t ih =>
    simp only [List.map_cons, digsOfChars]
    rw [digOfChar_charOfDig (h d (by simp)), ih (fun x hx => h x (by simp [hx]))]

theorem digsOfChars_replicate_zero (k : Nat) :
    digsOfChars (List.replicate k '0') = some (List.replicate k 0) := by
  induction k with
  | zero => rfl
  | succ n ih =>
    simp only [List.replicate_succ, digsOfChars, ih]
    rfl

theorem valOfDigs_replicate_zero_append (k : Nat) (l : List Nat) :
    valOfDigs (List.replicate k 0 ++ l) = valOfDigs l := by
  rw [valOfDigs_append]
  have : valOfDigs (List.replicate k 0) = 0 := by
    induction k with
    | zero => rfl
    | succ n ih =>
      simp only [valOfDigs, List.replicate_succ, List.foldl_cons] at ih ⊢
      simpa using ih
  simp [this]

/-- Split a character list at the first '.', if any. -/
def splitAtDot : Line → Line × Option Line
  | [] => ([], none)
  | c :: t =>
    if c = '.' then ([], some t)
    else (c :: (splitAtDot t).1, (splitAtDot t).2)

theorem splitAtDot_no_dot (l : Line) (h : ∀ c ∈ l, c ≠ '.') :
    splitAtDot l = (l, none) := by
  induction l with
  | nil => rfl
  | cons c t ih =>
    simp only [splitAtDot]
    rw [if_neg (h c (by simp)), ih (fun x hx => h x (by simp [hx]))]

theorem splitAtDot_append (l₁ l₂ : Line) (h : ∀ c ∈ l₁, c ≠ '.') :
    splitAtDot (l₁ ++ '.' :: l₂) = (l₁, some l₂) := by
  induction l₁ with
  | nil => simp [splitAtDot]
  | cons c t ih =>
    simp only [List.cons_append, splitAtDot, List.append_eq]
    rw [if_neg (h c (by simp)), ih (fun x hx => h x (by simp [hx]))]

/-- Modelled from the spec: the numeric-value grammar of the external
command parser (`parser.value_float`), restricted to the unsigned
fixed-decimal literals the reporter emits. -/
def parseUFixed (l : Line) : Option ℚ :=
  match (splitAtDot l).2 with
  | none => (digsOfChars (splitAtDot l).1).map (fun ds => (valOfDigs ds : ℚ))
  | some fp =>
    match digsOfChars (splitAtDot l).1, digsOfChars fp with
    | some ds, some fs =>
      some ((valOfDigs ds : ℚ) + (valOfDigs fs : ℚ) / 10 ^ fp.length)
    | _, _ => none

/-- Modelled from the spec: signed fixed-decimal literal parsing. -/
def parseFixed (l : Line) : Option ℚ :=
  if l.head? = some '-' then (parseUFixed l.tail).map (fun q => -q)
  else parseUFixed l

theorem digChars_no_dot (n : Nat) : ∀ c ∈ digChars n, c ≠ '.' := by
  intro c hc
  rcases List.mem_map.mp hc with ⟨d, hd, rfl⟩
  exact charOfDig_ne_dot (digsOf_lt_ten n d hd)

theorem digsOfChars_digCharsOf (n : Nat) :
    digsOfChars (digChars n) = some (digsOf n) := by
  simp only [digChars]
  exact digsOfChars_digChars _ (digsOf_lt_ten n)

theorem parseUFixed_digChars (n : Nat) :
    parseUFixed (digChars n) = some ((n : ℚ)) := by
  unfold parseUFixed
  rw [splitAtDot_no_dot _ (digChars_no_dot n)]
  simp [digsOfChars_digCharsOf, valOfDigs_digsOf]

theorem parseUFixed_body (n d : Nat) :
    parseUFixed (digChars (n / 10 ^ d) ++ (if d = 0 then [] else
      '.' :: (List.replicate (d - (digsOf (n % 10 ^ d)).length) '0' ++
        digChars (n % 10 ^ d)))) = some ((n : ℚ) / 10 ^ d) := by
  by_cases hd : d = 0
  · subst hd
    rw [if_pos rfl, List.append_nil, parseUFixed_digChars]
    norm_num
  · rw [if_neg hd]
    have hr : n % 10 ^ d < 10 ^ d := Nat.mod_lt _ (by positivity)
    have hlen : (digsOf (n % 10 ^ d)).length ≤ d :=
      digsOf_length_le _ d (by omega) hr
    have hfrac : digsOfChars (List.replicate (d - (digsOf (n % 10 ^ d)).length) '0' ++
        digChars (n % 10 ^ d)) =
        some (List.replicate (d - (digsOf (n % 10 ^ d)).length) 0 ++ digsOf (n % 10 ^ d)) :=
      digsOfChars_append (digsOfChars_replicate_zero _) (digsOfChars_digCharsOf _)
    unfold parseUFixed
    rw [splitAtDot_append _ _ (digChars_no_dot _)]
    dsimp only
    rw [digsOfChars_digCharsOf, hfrac]
    dsimp only
    simp only [Option.some.injEq]
    rw [valOfDigs_replicate_zero_append, valOfDigs_digsOf, valOfDigs_digsOf]
    have hflen : (List.replicate (d - (digsOf (n % 10 ^ d)).length) '0' ++
        digChars (n % 10 ^ d)).length = d := by
      simp only [List.length_append, List.length_replicate, digChars, List.length_map]
      omega
    rw [hflen]
    have hmod := Nat.div_add_mod n (10 ^ d)
    have h10 : ((10:ℚ) ^ d) ≠ 0 := by positivity
    field_simp
    have : ((10:ℚ)) ^ d * ((n / 10 ^ d : Nat) : ℚ) + ((n % 10 ^ d : Nat) : ℚ) = (n : ℚ) := by
      exact_mod_cast congrArg (fun m : Nat => (m : ℚ)) hmod
    linarith

theorem parseFixed_eq_parseUFixed (l : Line)
    (hh : l.head? ≠ some '-') : parseFixed l = parseUFixed l := by
  unfold parseFixed
  rw [if_neg hh]

theorem digChars_head (q : Nat) :
    ∃ d0 rest, digsOf q = d0 :: rest ∧ d0 < 10 ∧
      digChars q = charOfDig d0 :: rest.map charOfDig := by
  cases h : digsOf q with
  | nil => exact absurd h (digsOf_ne_nil q)
  | cons d0 rest =>
    refine ⟨d0, rest, rfl, digsOf_lt_ten q d0 (by rw [h]; simp), ?_⟩
    simp [digChars, h]

theorem parseFixed_fmtFixed (x : ℚ) (d : Nat) :
    parseFixed (fmtFixed x d) = some (fixedVal x d) := by
  unfold fmtFixed fixedVal
  by_cases hx : x < 0
  · simp only [if_pos hx]
    have hcons : (['-'] ++ digChars (roundScaled x d / 10 ^ d)) ++ (if d = 0 then [] else
        '.' :: (List.replicate (d - (digsOf (roundScaled x d % 10 ^ d)).length) '0' ++
          digChars (roundScaled x d % 10 ^ d))) =
        '-' :: (digChars (roundScaled x d / 10 ^ d) ++ (if d = 0 then [] else
        '.' :: (List.replicate (d - (digsOf (roundScaled x d % 10 ^ d)).length) '0' ++
          digChars (roundScaled x d % 10 ^ d)))) := by
      simp
    rw [hcons]
    unfold parseFixed
    rw [if_pos (by simp), List.tail_cons, parseUFixed_body]
    exact congrArg some (by ring)
  · simp only [if_neg hx, List.nil_append]
    obtain ⟨d0, rest, hds, hd0, hdc⟩ := digChars_head (roundScaled x d / 10 ^ d)
    rw [parseFixed_eq_parseUFixed, parseUFixed_body]
    · congr 1
      ring
    · rw [hdc]
      intro hc
      simp only [List.cons_append, List.head?_cons, Option.some.injEq] at hc
      exact charOfDig_ne_dash hd0 hc

theorem abs_fixedVal_sub_le (x : ℚ) (d : Nat) :
    |fixedVal x d - x| ≤ 1 / (2 * 10 ^ d) := by
  have hpow : (0:ℚ) < 10 ^ d := by positivity
  have hy0 : (0:ℚ) ≤ |x| * 10 ^ d := by positivity
  have hfl : (0:ℤ) ≤ ⌊|x| * 10 ^ d + 1/2⌋ := Int.floor_nonneg.mpr (by linarith)
  have hn : ((roundScaled x d : ℚ)) = ((⌊|x| * 10 ^ d + 1/2⌋ : ℤ) : ℚ) := by
    rw [roundScaled]
    exact_mod_cast congrArg (fun z : ℤ => (z : ℚ)) (Int.toNat_of_nonneg hfl)
  have h1 : ((⌊|x| * 10 ^ d + 1/2⌋ : ℤ) : ℚ) ≤ |x| * 10 ^ d + 1/2 := Int.floor_le _
  have h2 : |x| * 10 ^ d + 1/2 - 1 < ((⌊|x| * 10 ^ d + 1/2⌋ : ℤ) : ℚ) :=
    Int.sub_one_lt_floor _
  have hclose : |((roundScaled x d : ℚ)) - |x| * 10 ^ d| ≤ 1/2 := by
    rw [hn]
    rw [abs_le]
    constructor <;> linarith
  by_cases hx : x < 0
  · have habs : |x| = -x := abs_of_neg hx
    rw [fixedVal, if_pos hx]
    have hval : (-1 : ℚ) * (roundScaled x d : ℚ) / 10 ^ d - x =
        -(((roundScaled x d : ℚ) - |x| * 10 ^ d) / 10 ^ d) := by
      rw [habs]
      field_simp
      ring
    rw [hval, abs_neg, abs_div, abs_of_pos hpow, div_le_div_iff₀ hpow (by positivity)]
    calc |(roundScaled x d : ℚ) - |x| * 10 ^ d| * (2 * 10 ^ d)
        ≤ (1/2) * (2 * 10 ^ d) := by
          apply mul_le_mul_of_nonneg_right hclose
          positivity
      _ = 1 * 10 ^ d := by ring
  · have habs : |x| = x := abs_of_nonneg (by linarith)
    rw [fixedVal, if_neg hx]
    have hval : (1 : ℚ) * (roundScaled x d : ℚ) / 10 ^ d - x =
        ((roundScaled x d : ℚ) - |x| * 10 ^ d) / 10 ^ d := by
      rw [habs]
      field_simp
      ring
    rw [hval, abs_div, abs_of_pos hpow, div_le_div_iff₀ hpow (by positivity)]
    calc |(roundScaled x d : ℚ) - |x| * 10 ^ d| * (2 * 10 ^ d)
        ≤ (1/2) * (2 * 10 ^ d) := by
          apply mul_le_mul_of_nonneg_right hclose
          positivity
      _ = 1 * 10 ^ d := by ring

theorem fixedVal_close (x : ℚ) (d : Nat) : |fixedVal x d - x| ≤ 1 / 10 ^ d := by
  refine le_trans (abs_fixedVal_sub_le x d) ?_
  have hpow : (0:ℚ) < 10 ^ d := by positivity
  rw [div_le_div_iff₀ (by positivity) hpow]
  nlinarith

/-! ## Data model: MPC records, configuration, commands, effects -/

/-- One hotend's MPC coefficient record (`MPC_t`).  The record's fields are
those the spec's Model Store lists; the fan term is stored as
`ambient_xfer_coeff_fan_full` per the spec's description. -/
structure MPC where
  heater_power : ℚ
  block_heat_capacity : ℚ
  sensor_responsiveness : ℚ
  ambient_xfer_coeff_fan0 : ℚ
  ambient_xfer_coeff_fan_full : ℚ
  filament_heat_capacity_permm : ℚ
deriving DecidableEq

/-- Modelled from the spec: `MPC_t::applyFanAdjustment` (defined in
`module/temperature.h`, not part of the given sources).  Setting the fan
value stores the delta from the no-fan baseline: the full-fan coefficient
becomes baseline plus the given value, so the derived fan coefficient
equals the value and `ambient_xfer_coeff_fan0` is untouched. -/
def MPC.applyFanAdjustment (m : MPC) (v : ℚ) : MPC :=
  { m with ambient_xfer_coeff_fan_full := m.ambient_xfer_coeff_fan0 + v }

/-- Modelled from the spec: `MPC_t::fanCoefficient` — the derived fan
coefficient, full-fan transfer coefficient minus the no-fan baseline. -/
def MPC.fanCoefficient (m : MPC) : ℚ :=
  m.ambient_xfer_coeff_fan_full - m.ambient_xfer_coeff_fan0

def mpcDefault : MPC := ⟨0, 0, 0, 0, 0, 0⟩

/-- CAN bus role of the build: `CAN_HOST` (delegating controller),
`CAN_TOOLHEAD` (remote peer), or neither. -/
inductive CanRole
  | host
  | toolhead
  | standalone
deriving DecidableEq

/-- Compile-time configuration of the build (EXTRUDERS, MPC_INCLUDE_FAN,
CAN role, MARLIN_SMALL_BUILD).  MPCTEMP and MPC_AUTOTUNE are enabled. -/
structure Cfg where
  extruders : Nat
  includeFan : Bool
  role : CanRole
  smallBuild : Bool
deriving DecidableEq

/-- A parsed M306 command, as the external g-code parser exposes it:
`E` with its integer value if present with a value; `T` presence;
`S` with its value if present with a value; and for each coefficient
letter, `none` (absent), `some none` (present without a value) or
`some (some v)` (present with value `v`). -/
structure Cmd where
  E : Option Nat
  T : Bool
  S : Option Nat
  A : Option (Option ℚ)
  C : Option (Option ℚ)
  F : Option (Option ℚ)
  P : Option (Option ℚ)
  R : Option (Option ℚ)
  H : Option (Option ℚ)
deriving DecidableEq

def cmdEmpty : Cmd := ⟨none, false, none, none, none, none, none, none, none⟩

/-- `parser.seenval`: the field's value when the letter is present with a
value. -/
def seenval : Option (Option ℚ) → Option ℚ
  | some (some v) => some v
  | _ => none

/-- `parser.seen("ACFPRH")`: some of the six field letters is present. -/
def seenAny (cmd : Cmd) : Bool :=
  cmd.A.isSome || cmd.C.isSome || cmd.F.isSome ||
    cmd.P.isSome || cmd.R.isSome || cmd.H.isSome

/-- `Temperature::MPCTuningType`. -/
inductive MPCTuningType
  | AUTO
  | FORCE_DIFFERENTIAL
  | FORCE_ASYMPTOTIC
deriving DecidableEq

/-- The `switch (type)` mapping of the autotune method selector byte. -/
def tuningTypeOf (t : Nat) : MPCTuningType :=
  if t = 1 then MPCTuningType.FORCE_DIFFERENTIAL
  else if t = 2 then MPCTuningType.FORCE_ASYMPTOTIC
  else MPCTuningType.AUTO

/-- Observable effects of a command: serial console lines, LCD status
changes, invocation of the external autotune procedure, and text sent to
the CAN bus peer. -/
inductive Effect
  | serialLine (s : Line)
  | lcdMessage
  | lcdResetStatus
  | autotune (e : Nat) (t : MPCTuningType)
  | canSend (s : Line)
deriving DecidableEq

/-! ## Text lines emitted by the handler -/

/-- Modelled from the spec: the compile-time configured heater power
(the `MPC_HEATER_POWER` build constant from the configuration headers,
not part of the given sources; the stock value is 40.0 W). -/
def MPC_HEATER_POWER : ℚ := 40

/-- The out-of-range error notice of `M306` for an `EXTRUDERS`-element
build. -/
def outOfRangeMsg (n : Nat) : Line :=
  "?(E)xtruder index out of range (0-".data ++ digChars (n - 1) ++ ").".data

/-- The forwarding notice the CAN host prints instead of running autotune
locally.  Its heater-power figure is `p_float_t(MPC_HEATER_POWER, 1)`,
the build constant at one decimal place. -/
def hostForwardNotice : Line :=
  ">>> Forwarding M306 to toolhead\n>>> Store MPC setup in the host Configuration.h or use M500\n>>> MPC heater power is: ".data ++
    fmtFixed MPC_HEATER_POWER 1 ++ " Watts\n>>> Please wait for the auto tune results...".data

/-- Modelled from the spec: the heading line the settings report emits
once (`report_heading`, not part of the given sources). -/
def headingLine : Line := "; Model predictive control".data

/-- The extra notice the CAN host's report prints before the per-element
dump in replay mode. -/
def hostSettingsNotice : Line := ">>> Host M306 MPC settings:".data

/-- The per-element console line of `M306_report`, assembled exactly as
the source's `SERIAL_ECHOPGM`/`SERIAL_ECHOLNPGM` calls emit it. -/
def mpcEchoLine (e : Nat) (m : MPC) (fan : Bool) : Line :=
  "  M306 E".data ++ digChars e ++
    " P".data ++ fmtFixed m.heater_power 2 ++
    " C".data ++ fmtFixed m.block_heat_capacity 2 ++
    " R".data ++ fmtFixed m.sensor_responsiveness 4 ++
    " A".data ++ fmtFixed m.ambient_xfer_coeff_fan0 4 ++
    (if fan then " F".data ++ fmtFixed m.fanCoefficient 4 else []) ++
    " H".data ++ fmtFixed m.filament_heat_capacity_permm 4

/-- The element-0 record serialized into the bounded `MString<100>`
buffer for CAN transmission, assembled as the source builds it. -/
def mpcCanLine (m : MPC) (fan : Bool) : Line :=
  ("M306 E0 P".data ++ fmtFixed m.heater_power 2 ++
    " C".data ++ fmtFixed m.block_heat_capacity 2 ++
    " R".data ++ fmtFixed m.sensor_responsiveness 4 ++
    " A".data ++ fmtFixed m.ambient_xfer_coeff_fan0 4 ++
    (if fan then " F".data ++ fmtFixed m.fanCoefficient 4 else []) ++
    " H".data ++ fmtFixed m.filament_heat_capacity_permm 4).take 100

/-- The canonical settings line exactly as the spec words it: the fixed
command token, then `E<index>`, `P` (2 decimal places), `C` (2), `R` (4),
`A` (4), optionally `F` (the derived fan coefficient, 4), then `H` (4),
in that fixed order, fields separated by single blanks.  Stated from the
spec for comparison with the code-level line builders. -/
def specCanonicalLine (e : Nat) (m : MPC) (fan : Bool) : Line :=
  "M306".data ++ " E".data ++ digChars e ++
    " P".data ++ fmtFixed m.heater_power 2 ++
    " C".data ++ fmtFixed m.block_heat_capacity 2 ++
    " R".data ++ fmtFixed m.sensor_responsiveness 4 ++
    " A".data ++ fmtFixed m.ambient_xfer_coeff_fan0 4 ++
    (if fan then " F".data ++ fmtFixed m.fanCoefficient 4 else []) ++
    " H".data ++ fmtFixed m.filament_heat_capacity_permm 4

/-! ## The handler and the reporter -/

/-- In-place update of one list element. -/
def updateAt (l : List MPC) (i : Nat) (f : MPC → MPC) : List MPC :=
  match l, i with
  | [], _ => []
  | x :: t, 0 => f x :: t
  | x :: t, Nat.succ j => x :: updateAt t j f

/-- The field-update block of `M306`: each recognized letter present with
a value is assigned, in the source's order P, C, R, A, F, H; the fan
field goes through `applyFanAdjustment` and is compiled only when
`MPC_INCLUDE_FAN` is enabled. -/
def applyCmdFields (fan : Bool) (cmd : Cmd) (m : MPC) : MPC :=
  let m1 := match seenval cmd.P with
    | some v => { m with heater_power := v }
    | none => m
  let m2 := match seenval cmd.C with
    | some v => { m1 with block_heat_capacity := v }
    | none => m1
  let m3 := match seenval cmd.R with
    | some v => { m2 with sensor_responsiveness := v }
    | none => m2
  let m4 := match seenval cmd.A with
    | some v => { m3 with ambient_xfer_coeff_fan0 := v }
    | none => m3
  let m5 := if fan then
      match seenval cmd.F with
      | some v => m4.applyFanAdjustment v
      | none => m4
    else m4
  match seenval cmd.H with
  | some v => { m5 with filament_heat_capacity_permm := v }
  | none => m5

/-- `GcodeSuite::M306_report(forReplay)`: heading, host-mode notice,
one console line per hotend, and in the toolhead role with `forReplay`
the element-0 record serialized and sent to the CAN peer.  Suppressed
entirely by `MARLIN_SMALL_BUILD`. -/
def M306report (cfg : Cfg) (st : List MPC) (forReplay : Bool) : List Effect :=
  if cfg.smallBuild then [] else
    Effect.serialLine headingLine ::
      ((if cfg.role = CanRole.host ∧ forReplay then
          [Effect.serialLine hostSettingsNotice] else []) ++
        (List.range cfg.extruders).map (fun e =>
          Effect.serialLine (mpcEchoLine e (st.getD e mpcDefault) cfg.includeFan)) ++
        (if cfg.role = CanRole.toolhead ∧ forReplay then
          [Effect.canSend (mpcCanLine (st.getD 0 mpcDefault) cfg.includeFan)] else []))

/-- The effective extruder index: `TERN0(HAS_MULTI_EXTRUDER,
parser.intval('E', active_extruder))` assigned to a `uint8_t`. -/
def effIndex (cfg : Cfg) (act : Nat) (cmd : Cmd) : Nat :=
  (if 1 < cfg.extruders then cmd.E.getD act else 0) % 256

/-- `GcodeSuite::M306`: range check, autotune dispatch (host forwarding
or local run, with the toolhead build reporting results back), the
field-update block, or the settings report.  Returns the new Model Store
and the emitted effects. -/
def M306run (cfg : Cfg) (act : Nat) (st : List MPC) (cmd : Cmd) :
    List MPC × List Effect :=
  if cfg.extruders ≤ effIndex cfg act cmd then
    (st, [Effect.serialLine (outOfRangeMsg cfg.extruders)])
  else if cmd.T then
    match cfg.role with
    | CanRole.host => (st, [Effect.serialLine hostForwardNotice])
    | CanRole.toolhead =>
        (st, [Effect.lcdMessage,
          Effect.autotune (effIndex cfg act cmd) (tuningTypeOf ((cmd.S.getD 0) % 256)),
          Effect.lcdResetStatus] ++ M306report cfg st true)
    | CanRole.standalone =>
        (st, [Effect.lcdMessage,
          Effect.autotune (effIndex cfg act cmd) (tuningTypeOf ((cmd.S.getD 0) % 256)),
          Effect.lcdResetStatus])
  else if seenAny cmd then
    (updateAt st (effIndex cfg act cmd) (applyCmdFields cfg.includeFan cmd), [])
  else
    (st, M306report cfg st true)

/-! ## Evaluating the rounding at concrete inputs -/

theorem roundScaled_val {x : ℚ} {d n : Nat}
    (h1 : (n:ℚ) ≤ |x| * 10 ^ d + 1/2) (h2 : |x| * 10 ^ d + 1/2 < n + 1) :
    roundScaled x d = n := by
  rw [roundScaled]
  have : ⌊|x| * 10 ^ d + 1/2⌋ = (n : ℤ) := by
    rw [Int.floor_eq_iff]
    constructor
    · exact_mod_cast h1
    · exact_mod_cast h2
  rw [this]
  simp

theorem roundScaled_val_nonneg {x : ℚ} (hx : 0 ≤ x) {d n : Nat}
    (h1 : (n:ℚ) ≤ x * 10 ^ d + 1/2) (h2 : x * 10 ^ d + 1/2 < n + 1) :
    roundScaled x d = n :=
  roundScaled_val (by rwa [abs_of_nonneg hx]) (by rwa [abs_of_nonneg hx])

/-! ## The external tokenizer, modelled for the round-trip law -/

/-- Modelled from the spec: the external g-code tokenizer splits a
command line on blanks. -/
def splitSp : Line → List Line
  | [] => [[]]
  | c :: t =>
    if c = ' ' then [] :: splitSp t
    else (c :: (splitSp t).headD []) :: (splitSp t).tail

theorem splitSp_no_sp (l : Line) (h : ∀ c ∈ l, c ≠ ' ') :
    splitSp l = [l] := by
  induction l with
  | nil => rfl
  | cons c t ih =>
    simp only [splitSp]
    rw [if_neg (h c (by simp)), ih (fun x hx => h x (by simp [hx]))]
    rfl

theorem splitSp_append_sp (l₁ l₂ : Line) (h : ∀ c ∈ l₁, c ≠ ' ') :
    splitSp (l₁ ++ ' ' :: l₂) = l₁ :: splitSp l₂ := by
  induction l₁ with
  | nil => simp [splitSp]
  | cons c t ih =>
    simp only [List.cons_append, splitSp, List.append_eq]
    rw [if_neg (h c (by simp)), ih (fun x hx => h x (by simp [hx]))]
    rfl

/-- Modelled from the spec: the external parser's field decoding — the
first character of a blank-separated token is the field letter, the rest
its numeric value (§6: integer values for `E`/`S`, float values for the
coefficient letters). -/
def addField (c : Cmd) (f : Line) : Cmd :=
  match f with
  | [] => c
  | ch :: rest =>
    if ch = 'E' then { c with E := (digsOfChars rest).map valOfDigs }
    else if ch = 'T' then { c with T := true }
    else if ch = 'S' then { c with S := (digsOfChars rest).map valOfDigs }
    else if ch = 'A' then { c with A := some (parseFixed rest) }
    else if ch = 'C' then { c with C := some (parseFixed rest) }
    else if ch = 'F' then { c with F := some (parseFixed rest) }
    else if ch = 'P' then { c with P := some (parseFixed rest) }
    else if ch = 'R' then { c with R := some (parseFixed rest) }
    else if ch = 'H' then { c with H := some (parseFixed rest) }
    else c

/-- Modelled from the spec: re-parsing an emitted `M306 ...` settings
line through the external tokenizer yields a parsed command again. -/
def cmdOfLine (l : Line) : Option Cmd :=
  match splitSp l with
  | [] => none
  | tok :: fields =>
    if tok = "M306".data then some (fields.foldl addField cmdEmpty) else none

/-! ## Substring testing (for the forwarding-notice claims) -/

/-- `leadsWith pre l`: `l` starts with `pre`. -/
def leadsWith : Line → Line → Bool
  | [], _ => true
  | _ :: _, [] => false
  | a :: as, b :: bs => a = b && leadsWith as bs

/-- `containsSub needle hay`: `needle` occurs contiguously in `hay`. -/
def containsSub (needle hay : Line) : Bool :=
  leadsWith needle hay ||
    match hay with
    | [] => false
    | _ :: t => containsSub needle t

/-! ## Helper lemmas about the embedding -/

theorem updateAt_length (l : List MPC) (i : Nat) (f : MPC → MPC) :
    (updateAt l i f).length = l.length := by
  induction l generalizing i with
  | nil => rfl
  | cons x t ih =>
    cases i with
    | zero => rfl
    | succ j => simp [updateAt, ih]

theorem getD_updateAt (l : List MPC) (i : Nat) (f : MPC → MPC) (d : MPC)
    (h : i < l.length) :
    (updateAt l i f).getD i d = f (l.getD i d) := by
  induction l generalizing i with
  | nil => simp at h
  | cons x t ih =>
    cases i with
    | zero => rfl
    | succ j =>
      simp only [updateAt, List.getD_cons_succ]
      exact ih j (by simpa using h)

theorem updateAt_id (l : List MPC) (i : Nat) (f : MPC → MPC)
    (h : ∀ x, f x = x) : updateAt l i f = l := by
  induction l generalizing i with
  | nil => rfl
  | cons x t ih =>
    cases i with
    | zero => simp [updateAt, h]
    | succ j => simp [updateAt, ih]

theorem M306run_fst_length (cfg : Cfg) (act : Nat) (st : List MPC) (cmd : Cmd) :
    ((M306run cfg act st cmd).1).length = st.length := by
  rw [M306run]
  split
  · rfl
  · split
    · cases cfg.role <;> rfl
    · split
      · simp [updateAt_length]
      · rfl

theorem mpcEchoLine_head (e : Nat) (m : MPC) (fan : Bool) :
    (mpcEchoLine e m fan).head? = some ' ' := rfl

theorem outOfRangeMsg_head (n : Nat) :
    (outOfRangeMsg n).head? = some '?' := rfl

theorem headingLine_head : headingLine.head? = some ';' := rfl

theorem hostSettingsNotice_head : hostSettingsNotice.head? = some '>' := rfl

theorem hostForwardNotice_head : hostForwardNotice.head? = some '>' := rfl

theorem mpcEchoLine_ne_outOfRangeMsg (e : Nat) (m : MPC) (fan : Bool) (n : Nat) :
    mpcEchoLine e m fan ≠ outOfRangeMsg n := by
  intro h
  have := congrArg List.head? h
  rw [mpcEchoLine_head, outOfRangeMsg_head] at this
  exact absurd this (by decide)

theorem headingLine_ne_outOfRangeMsg (n : Nat) :
    headingLine ≠ outOfRangeMsg n := by
  intro h
  have := congrArg List.head? h
  rw [headingLine_head, outOfRangeMsg_head] at this
  exact absurd this (by decide)

theorem hostSettingsNotice_ne_outOfRangeMsg (n : Nat) :
    hostSettingsNotice ≠ outOfRangeMsg n := by
  intro h
  have := congrArg List.head? h
  rw [hostSettingsNotice_head, outOfRangeMsg_head] at this
  exact absurd this (by decide)

/-- Every serial line of the settings report is the heading, the host
notice, or a per-element echo line. -/
theorem M306report_serial_chars (cfg : Cfg) (st : List MPC) (fr : Bool) (s : Line)
    (h : Effect.serialLine s ∈ M306report cfg st fr) :
    s = headingLine ∨ s = hostSettingsNotice ∨
      ∃ e < cfg.extruders, s = mpcEchoLine e (st.getD e mpcDefault) cfg.includeFan := by
  rw [M306report] at h
  split at h
  · simp at h
  · simp only [List.mem_cons, List.mem_append] at h
    rcases h with h | h
    · left
      injection h
    · rcases h with (h | h) | h
      · split at h
        · simp only [List.mem_singleton] at h
          right
          left
          injection h
        · simp at h
      · rcases List.mem_map.mp h with ⟨e, he, heq⟩
        refine Or.inr (Or.inr ⟨e, List.mem_range.mp he, ?_⟩)
        injection heq.symm
      · split at h
        · simp only [List.mem_singleton] at h
          injection h
        · simp at h

/-! ## Field-update block lemmas -/

theorem applyCmdFields_id (fan : Bool) (cmd : Cmd)
    (hA : seenval cmd.A = none) (hC : seenval cmd.C = none)
    (hF : seenval cmd.F = none) (hP : seenval cmd.P = none)
    (hR : seenval cmd.R = none) (hH : seenval cmd.H = none) :
    ∀ m, applyCmdFields fan cmd m = m := by
  intro m
  rw [applyCmdFields, hA, hC, hP, hR, hH]
  cases fan
  · rfl
  · rw [hF]
    rfl

theorem applyCmdFields_fan0 (fan : Bool) (cmd : Cmd) (m : MPC)
    (hA : seenval cmd.A = none) :
    (applyCmdFields fan cmd m).ambient_xfer_coeff_fan0 =
      m.ambient_xfer_coeff_fan0 := by
  rw [applyCmdFields, hA]
  cases hP : seenval cmd.P <;> cases hC : seenval cmd.C <;>
    cases hR : seenval cmd.R <;> cases fan <;>
    cases hF : seenval cmd.F <;> cases hH : seenval cmd.H <;>
    rfl

theorem applyCmdFields_fanCoefficient (cmd : Cmd) (m : MPC) (v : ℚ)
    (hF : seenval cmd.F = some v) :
    (applyCmdFields true cmd m).fanCoefficient = v := by
  rw [applyCmdFields, hF]
  cases hP : seenval cmd.P <;> cases hC : seenval cmd.C <;>
    cases hR : seenval cmd.R <;> cases hA : seenval cmd.A <;>
    cases hH : seenval cmd.H <;>
    simp [MPC.fanCoefficient, MPC.applyFanAdjustment]

/-! ## Claim theorems -/

/-- C1: for every heating element index at or above the configured
element count, `M306` emits exactly one out-of-range error notice on the
console and returns: the Model Store is unchanged and no autotune is
invoked. -/
theorem M306_out_of_range_noop (cfg : Cfg) (act : Nat) (st : List MPC) (cmd : Cmd)
    (h : cfg.extruders ≤ effIndex cfg act cmd) :
    M306run cfg act st cmd = (st, [Effect.serialLine (outOfRangeMsg cfg.extruders)]) ∧
    (M306run cfg act st cmd).1 = st ∧
    ∀ i τ, Effect.autotune i τ ∉ (M306run cfg act st cmd).2 := by
  have hrun : M306run cfg act st cmd =
      (st, [Effect.serialLine (outOfRangeMsg cfg.extruders)]) := by
    rw [M306run, if_pos h]
  refine ⟨hrun, by rw [hrun], ?_⟩
  intro i τ hmem
  rw [hrun] at hmem
  simp at hmem

def exCfg : Cfg := ⟨2, true, CanRole.standalone, false⟩

def exCmdE5 : Cmd := { cmdEmpty with E := some 5 }

theorem M306_out_of_range_noop_witness :
    exCfg.extruders ≤ effIndex exCfg 0 exCmdE5 ∧
      (M306run exCfg 0 [] exCmdE5 =
        ([], [Effect.serialLine (outOfRangeMsg exCfg.extruders)]) ∧
      (M306run exCfg 0 [] exCmdE5).1 = [] ∧
      ∀ i τ, Effect.autotune i τ ∉ (M306run exCfg 0 [] exCmdE5).2) :=
  ⟨by decide, M306_out_of_range_noop exCfg 0 [] exCmdE5 (by decide)⟩

/-- Erase every coefficient field assignment from a command. -/
def eraseFields (cmd : Cmd) : Cmd :=
  { cmd with A := none, C := none, F := none, P := none, R := none, H := none }

/-- C2: a command that requests autotune (`T`) behaves exactly like the
same command with every coefficient field assignment removed, and never
modifies the Model Store: the handler returns from the autotune dispatch
before the field-update path. -/
theorem M306_autotune_ignores_fields (cfg : Cfg) (act : Nat) (st : List MPC)
    (cmd : Cmd) (hT : cmd.T = true) :
    M306run cfg act st cmd = M306run cfg act st (eraseFields cmd) ∧
    (M306run cfg act st cmd).1 = st := by
  have he : effIndex cfg act (eraseFields cmd) = effIndex cfg act cmd := rfl
  have hT2 : (eraseFields cmd).T = true := hT
  by_cases hr : cfg.extruders ≤ effIndex cfg act cmd
  · constructor
    · rw [M306run, M306run, he, if_pos hr, if_pos hr]
    · rw [M306run, if_pos hr]
  · constructor
    · rw [M306run, M306run, he, if_neg hr, if_neg hr, if_pos hT, if_pos hT2]
      cases cfg.role <;> rfl
    · rw [M306run, if_neg hr, if_pos hT]
      cases cfg.role <;> rfl

def exCmdTP : Cmd := { cmdEmpty with T := true, P := some (some 1) }

theorem M306_autotune_ignores_fields_witness :
    exCmdTP.T = true ∧
      (M306run exCfg 0 [] exCmdTP = M306run exCfg 0 [] (eraseFields exCmdTP) ∧
      (M306run exCfg 0 [] exCmdTP).1 = []) :=
  ⟨rfl, M306_autotune_ignores_fields exCfg 0 [] exCmdTP rfl⟩

/-- C6: in the delegating (CAN host) role, an autotune request with a
valid element index never mutates the Model Store and never invokes the
local autotune procedure; every effect is console output. -/
theorem M306_host_dispatch_frame (cfg : Cfg) (act : Nat) (st : List MPC)
    (cmd : Cmd) (hrole : cfg.role = CanRole.host) (hT : cmd.T = true)
    (he : effIndex cfg act cmd < cfg.extruders) :
    M306run cfg act st cmd = (st, [Effect.serialLine hostForwardNotice]) ∧
    (∀ i τ, Effect.autotune i τ ∉ (M306run cfg act st cmd).2) ∧
    ∀ eff ∈ (M306run cfg act st cmd).2, ∃ s, eff = Effect.serialLine s := by
  have hrun : M306run cfg act st cmd = (st, [Effect.serialLine hostForwardNotice]) := by
    rw [M306run, if_neg (not_le.mpr he), if_pos hT, hrole]
  refine ⟨hrun, ?_, ?_⟩
  · intro i τ hmem
    rw [hrun] at hmem
    simp at hmem
  · intro eff hmem
    rw [hrun] at hmem
    simp only [List.mem_singleton] at hmem
    exact ⟨hostForwardNotice, hmem⟩

def hostCfg : Cfg := ⟨1, true, CanRole.host, false⟩

def exCmdT : Cmd := { cmdEmpty with T := true }

theorem M306_host_dispatch_frame_witness :
    hostCfg.role = CanRole.host ∧ exCmdT.T = true ∧
      effIndex hostCfg 0 exCmdT < hostCfg.extruders ∧
      (M306run hostCfg 0 [] exCmdT = ([], [Effect.serialLine hostForwardNotice]) ∧
      (∀ i τ, Effect.autotune i τ ∉ (M306run hostCfg 0 [] exCmdT).2) ∧
      ∀ eff ∈ (M306run hostCfg 0 [] exCmdT).2, ∃ s, eff = Effect.serialLine s) :=
  ⟨rfl, rfl, by decide, M306_host_dispatch_frame hostCfg 0 [] exCmdT rfl rfl (by decide)⟩

/-- C10: a command without an autotune request in which some of the
letters A, C, F, P, R, H appears but none carries a value takes the
field-update path and returns: the Model Store is unchanged and no
settings report (indeed no output at all) is emitted. -/
theorem M306_bare_field_letters_silent_noop (cfg : Cfg) (act : Nat)
    (st : List MPC) (cmd : Cmd) (hT : cmd.T = false)
    (he : effIndex cfg act cmd < cfg.extruders)
    (hseen : seenAny cmd = true)
    (hA : seenval cmd.A = none) (hC : seenval cmd.C = none)
    (hF : seenval cmd.F = none) (hP : seenval cmd.P = none)
    (hR : seenval cmd.R = none) (hH : seenval cmd.H = none) :
    M306run cfg act st cmd = (st, []) := by
  rw [M306run, if_neg (not_le.mpr he), if_neg (by rw [hT]; exact Bool.false_ne_true),
    if_pos hseen, updateAt_id _ _ _ (applyCmdFields_id _ _ hA hC hF hP hR hH)]

def exCmdAbare : Cmd := { cmdEmpty with A := some none }

theorem M306_bare_field_letters_silent_noop_witness :
    exCmdAbare.T = false ∧ effIndex exCfg 0 exCmdAbare < exCfg.extruders ∧
      seenAny exCmdAbare = true ∧ seenval exCmdAbare.A = none ∧
      M306run exCfg 0 [] exCmdAbare = ([], []) :=
  ⟨rfl, by decide, rfl, rfl,
    M306_bare_field_letters_silent_noop exCfg 0 [] exCmdAbare rfl (by decide)
      rfl rfl rfl rfl rfl rfl rfl⟩

/-- C3: the strategy-selector byte maps as: absent or 0 to AUTO, 1 to
FORCE_DIFFERENTIAL, 2 to FORCE_ASYMPTOTIC, any other byte value to AUTO;
no selector value is rejected (the dispatch always reaches the autotune
invocation, and no out-of-range error line is emitted). -/
theorem M306_strategy_selector_mapping (cfg : Cfg) (act : Nat) (st : List MPC)
    (cmd : Cmd) (hrole : cfg.role ≠ CanRole.host) (hT : cmd.T = true)
    (he : effIndex cfg act cmd < cfg.extruders) :
    ∃ τ, Effect.autotune (effIndex cfg act cmd) τ ∈ (M306run cfg act st cmd).2 ∧
      ((cmd.S = none → τ = MPCTuningType.AUTO) ∧
       (∀ s, cmd.S = some s → s % 256 = 0 → τ = MPCTuningType.AUTO) ∧
       (∀ s, cmd.S = some s → s % 256 = 1 → τ = MPCTuningType.FORCE_DIFFERENTIAL) ∧
       (∀ s, cmd.S = some s → s % 256 = 2 → τ = MPCTuningType.FORCE_ASYMPTOTIC) ∧
       (∀ s, cmd.S = some s → s % 256 ≠ 0 → s % 256 ≠ 1 → s % 256 ≠ 2 →
         τ = MPCTuningType.AUTO)) ∧
      ∀ l, Effect.serialLine l ∈ (M306run cfg act st cmd).2 →
        l ≠ outOfRangeMsg cfg.extruders := by
  refine ⟨tuningTypeOf ((cmd.S.getD 0) % 256), ?_, ?_, ?_⟩
  · rw [M306run, if_neg (not_le.mpr he), if_pos hT]
    cases hcr : cfg.role
    · exact absurd hcr hrole
    · simp
    · simp
  · refine ⟨?_, ?_, ?_, ?_, ?_⟩
    · intro hS
      rw [hS]
      rfl
    · intro s hs h0
      rw [hs]
      show tuningTypeOf (s % 256) = MPCTuningType.AUTO
      rw [h0]
      rfl
    · intro s hs h1
      rw [hs]
      show tuningTypeOf (s % 256) = MPCTuningType.FORCE_DIFFERENTIAL
      rw [h1]
      rfl
    · intro s hs h2
      rw [hs]
      show tuningTypeOf (s % 256) = MPCTuningType.FORCE_ASYMPTOTIC
      rw [h2]
      rfl
    · intro s hs h0 h1 h2
      rw [hs]
      show tuningTypeOf (s % 256) = MPCTuningType.AUTO
      rw [tuningTypeOf, if_neg h1, if_neg h2]
  · intro l hl
    rw [M306run, if_neg (not_le.mpr he), if_pos hT] at hl
    cases hcr : cfg.role
    · exact absurd hcr hrole
    · rw [hcr] at hl
      simp only [List.cons_append, List.nil_append, List.mem_cons] at hl
      rcases hl with h | h | h | h
      · exact absurd h (by simp)
      · exact absurd h (by simp)
      · exact absurd h (by simp)
      · rcases M306report_serial_chars cfg st true l h with h1 | h1 | ⟨e, _, h1⟩
        · rw [h1]; exact headingLine_ne_outOfRangeMsg _
        · rw [h1]; exact hostSettingsNotice_ne_outOfRangeMsg _
        · rw [h1]; exact mpcEchoLine_ne_outOfRangeMsg _ _ _ _
    · rw [hcr] at hl
      simp only [List.mem_cons] at hl
      rcases hl with h | h | h | h
      · exact absurd h (by simp)
      · exact absurd h (by simp)
      · exact absurd h (by simp)
      · simp at h

def tuneCfg : Cfg := ⟨1, true, CanRole.standalone, false⟩

def exCmdTS1 : Cmd := { cmdEmpty with T := true, S := some 1 }

theorem M306_strategy_selector_mapping_witness :
    tuneCfg.role ≠ CanRole.host ∧ exCmdTS1.T = true ∧
      effIndex tuneCfg 0 exCmdTS1 < tuneCfg.extruders ∧
      (∃ τ, Effect.autotune (effIndex tuneCfg 0 exCmdTS1) τ ∈
          (M306run tuneCfg 0 [] exCmdTS1).2 ∧
        ((exCmdTS1.S = none → τ = MPCTuningType.AUTO) ∧
         (∀ s, exCmdTS1.S = some s → s % 256 = 0 → τ = MPCTuningType.AUTO) ∧
         (∀ s, exCmdTS1.S = some s → s % 256 = 1 → τ = MPCTuningType.FORCE_DIFFERENTIAL) ∧
         (∀ s, exCmdTS1.S = some s → s % 256 = 2 → τ = MPCTuningType.FORCE_ASYMPTOTIC) ∧
         (∀ s, exCmdTS1.S = some s → s % 256 ≠ 0 → s % 256 ≠ 1 → s % 256 ≠ 2 →
           τ = MPCTuningType.AUTO)) ∧
        ∀ l, Effect.serialLine l ∈ (M306run tuneCfg 0 [] exCmdTS1).2 →
          l ≠ outOfRangeMsg tuneCfg.extruders) :=
  ⟨by decide, rfl, by decide,
    M306_strategy_selector_mapping tuneCfg 0 [] exCmdTS1 (by decide) rfl (by decide)⟩

/-- C5: with the fan feature enabled, a fan-field update `F v` (with no
`A` assignment in the same command) leaves the element's stored
`ambient_xfer_coeff_fan0` unchanged and makes the derived fan
coefficient exactly `v`; the full-fan value is only ever written through
the baseline-plus-delta rule, never assigned directly. -/
theorem M306_fan_update_is_delta (cfg : Cfg) (act : Nat) (st : List MPC)
    (cmd : Cmd) (v : ℚ) (hfan : cfg.includeFan = true) (hT : cmd.T = false)
    (hF : cmd.F = some (some v)) (hA : cmd.A = none)
    (he : effIndex cfg act cmd < cfg.extruders)
    (hlen : st.length = cfg.extruders) :
    ((M306run cfg act st cmd).1.getD (effIndex cfg act cmd) mpcDefault).ambient_xfer_coeff_fan0 =
      (st.getD (effIndex cfg act cmd) mpcDefault).ambient_xfer_coeff_fan0 ∧
    ((M306run cfg act st cmd).1.getD (effIndex cfg act cmd) mpcDefault).fanCoefficient = v := by
  have hseen : seenAny cmd = true := by
    rw [seenAny, hF]
    simp
  have hrun : (M306run cfg act st cmd).1 =
      updateAt st (effIndex cfg act cmd) (applyCmdFields cfg.includeFan cmd) := by
    rw [M306run, if_neg (not_le.mpr he), if_neg (by rw [hT]; exact Bool.false_ne_true),
      if_pos hseen]
  rw [hrun, getD_updateAt _ _ _ _ (by rw [hlen]; exact he), hfan]
  constructor
  · exact applyCmdFields_fan0 true cmd _ (by rw [hA]; rfl)
  · exact applyCmdFields_fanCoefficient cmd _ v (by rw [hF]; rfl)

def exStOne : List MPC := [⟨1, 1, 1, 1, 1, 1⟩]

def exCmdFan : Cmd := { cmdEmpty with F := some (some 2) }

theorem M306_fan_update_is_delta_witness :
    tuneCfg.includeFan = true ∧ exCmdFan.T = false ∧
      exCmdFan.F = some (some 2) ∧ exCmdFan.A = none ∧
      effIndex tuneCfg 0 exCmdFan < tuneCfg.extruders ∧
      exStOne.length = tuneCfg.extruders ∧
      (((M306run tuneCfg 0 exStOne exCmdFan).1.getD (effIndex tuneCfg 0 exCmdFan) mpcDefault).ambient_xfer_coeff_fan0 =
        (exStOne.getD (effIndex tuneCfg 0 exCmdFan) mpcDefault).ambient_xfer_coeff_fan0 ∧
      ((M306run tuneCfg 0 exStOne exCmdFan).1.getD (effIndex tuneCfg 0 exCmdFan) mpcDefault).fanCoefficient = 2) :=
  ⟨rfl, rfl, rfl, rfl, by decide, rfl,
    M306_fan_update_is_delta tuneCfg 0 exStOne exCmdFan 2 rfl rfl rfl rfl (by decide) rfl⟩

/-! ## The forwarding notice and the configured heater power (C7) -/

theorem fmtFixed_heater_const : fmtFixed MPC_HEATER_POWER 1 = "40.0".data := by
  rw [MPC_HEATER_POWER, fmtFixed,
    roundScaled_val_nonneg (x := 40) (d := 1) (n := 400)
      (by norm_num) (by norm_num) (by norm_num)]
  norm_num
  decide

theorem fmtFixed_150_1 : fmtFixed (150 : ℚ) 1 = "150.0".data := by
  rw [fmtFixed,
    roundScaled_val_nonneg (x := 150) (d := 1) (n := 1500)
      (by norm_num) (by norm_num) (by norm_num)]
  norm_num
  decide

def c7st : List MPC := [⟨150, 33, 1/10, 3/25, 7/10, 2/5⟩]

/-- C7 counterexample: with the targeted element's stored heater power
set to 150 W, the host-role forwarding notice — the only console output
of the dispatch — does not contain that record value (at the notice's
one-decimal rendering); it contains the `MPC_HEATER_POWER` build
constant instead. -/
theorem M306_host_notice_power_counterexample :
    (M306run hostCfg 0 c7st exCmdT).2 = [Effect.serialLine hostForwardNotice] ∧
    (c7st.getD (effIndex hostCfg 0 exCmdT) mpcDefault).heater_power = 150 ∧
    containsSub (fmtFixed ((c7st.getD (effIndex hostCfg 0 exCmdT) mpcDefault).heater_power) 1)
      hostForwardNotice = false := by
  refine ⟨?_, rfl, ?_⟩
  · rw [M306run]
    rfl
  · rw [show (c7st.getD (effIndex hostCfg 0 exCmdT) mpcDefault).heater_power = (150:ℚ) from rfl,
      fmtFixed_150_1, hostForwardNotice, fmtFixed_heater_const]
    decide

/-- C7 amended: in the delegating (host) role, the forwarding notice
contains the compile-time configured heater power (`MPC_HEATER_POWER`,
rendered at one decimal place), not the targeted element's Model Store
heater power: the notice is independent of the Model Store contents. -/
theorem M306_host_notice_const_power (cfg : Cfg) (act : Nat)
    (st st' : List MPC) (cmd : Cmd) (hrole : cfg.role = CanRole.host)
    (hT : cmd.T = true) (he : effIndex cfg act cmd < cfg.extruders) :
    (M306run cfg act st cmd).2 = [Effect.serialLine hostForwardNotice] ∧
    (M306run cfg act st cmd).2 = (M306run cfg act st' cmd).2 ∧
    containsSub (fmtFixed MPC_HEATER_POWER 1) hostForwardNotice = true := by
  have h1 : ∀ s : List MPC,
      (M306run cfg act s cmd).2 = [Effect.serialLine hostForwardNotice] := by
    intro s
    rw [M306run, if_neg (not_le.mpr he), if_pos hT, hrole]
  refine ⟨h1 st, by rw [h1 st, h1 st'], ?_⟩
  rw [hostForwardNotice, fmtFixed_heater_const]
  decide

theorem M306_host_notice_const_power_witness :
    hostCfg.role = CanRole.host ∧ exCmdT.T = true ∧
      effIndex hostCfg 0 exCmdT < hostCfg.extruders ∧
      ((M306run hostCfg 0 c7st exCmdT).2 = [Effect.serialLine hostForwardNotice] ∧
      (M306run hostCfg 0 c7st exCmdT).2 = (M306run hostCfg 0 [] exCmdT).2 ∧
      containsSub (fmtFixed MPC_HEATER_POWER 1) hostForwardNotice = true) :=
  ⟨rfl, rfl, by decide,
    M306_host_notice_const_power hostCfg 0 c7st [] exCmdT rfl rfl (by decide)⟩

/-! ## The canonical line shape (C4, C8) -/

theorem takeWhile_no_sp_append_sp (a r : Line) (ha : ∀ c ∈ a, c ≠ ' ') :
    (a ++ ' ' :: r).takeWhile (fun c => decide (c ≠ ' ')) = a := by
  induction a with
  | nil => simp
  | cons c t ih =>
    simp only [List.cons_append, List.takeWhile_cons]
    rw [if_pos (by simpa using ha c (by simp)), ih (fun x hx => ha x (by simp [hx]))]

theorem mpcEchoLine_digits (e : Nat) (m : MPC) (fan : Bool) :
    ((mpcEchoLine e m fan).drop 8).takeWhile (fun c => decide (c ≠ ' ')) =
      digChars e := by
  rw [mpcEchoLine]
  simp only [List.append_assoc]
  rw [show (8:Nat) = ("  M306 E".data : Line).length from rfl, List.drop_left]
  exact takeWhile_no_sp_append_sp (digChars e) _ (digChars_no_space e)

theorem echoEffect_inj (st : List MPC) (fan : Bool) :
    Function.Injective
      (fun i : Nat => Effect.serialLine (mpcEchoLine i (st.getD i mpcDefault) fan)) := by
  intro i j hij
  simp only [Effect.serialLine.injEq] at hij
  have h2 := congrArg
    (fun l : Line => (l.drop 8).takeWhile (fun c => decide (c ≠ ' '))) hij
  simp only at h2
  rw [mpcEchoLine_digits, mpcEchoLine_digits] at h2
  exact digChars_inj h2

theorem mpcEchoLine_ne_headingLine (e : Nat) (m : MPC) (fan : Bool) :
    mpcEchoLine e m fan ≠ headingLine := by
  intro h
  have := congrArg List.head? h
  rw [mpcEchoLine_head, headingLine_head] at this
  exact absurd this (by decide)

theorem mpcEchoLine_ne_hostSettingsNotice (e : Nat) (m : MPC) (fan : Bool) :
    mpcEchoLine e m fan ≠ hostSettingsNotice := by
  intro h
  have := congrArg List.head? h
  rw [mpcEchoLine_head, hostSettingsNotice_head] at this
  exact absurd this (by decide)

/-- C4: the settings report's console line for element `e` is exactly
the spec's canonical form (fixed command token, then `E`, `P` 2dp, `C`
2dp, `R` 4dp, `A` 4dp, optional `F` 4dp, `H` 4dp, in that order) behind
the two-blank indentation, and the report contains exactly one such line
for element `e`. -/
theorem M306_report_line_canonical (cfg : Cfg) (st : List MPC) (e : Nat)
    (he : e < cfg.extruders) (hsb : cfg.smallBuild = false) :
    mpcEchoLine e (st.getD e mpcDefault) cfg.includeFan =
      "  ".data ++ specCanonicalLine e (st.getD e mpcDefault) cfg.includeFan ∧
    (M306report cfg st true).count
      (Effect.serialLine (mpcEchoLine e (st.getD e mpcDefault) cfg.includeFan)) = 1 := by
  constructor
  · rw [mpcEchoLine, specCanonicalLine]
    simp only [List.append_assoc]
    rfl
  · rw [M306report, if_neg (by rw [hsb]; exact Bool.false_ne_true)]
    rw [show ∀ (x : Effect) (l : List Effect), x :: l = [x] ++ l from fun x l => rfl]
    rw [List.count_append, List.count_append, List.count_append]
    have h1 : ([Effect.serialLine headingLine] : List Effect).count
        (Effect.serialLine (mpcEchoLine e (st.getD e mpcDefault) cfg.includeFan)) = 0 := by
      rw [List.count_eq_zero]
      intro hmem
      simp only [List.mem_singleton] at hmem
      exact mpcEchoLine_ne_headingLine e _ _ (by injection hmem)
    have h2 : ((if cfg.role = CanRole.host ∧ true = true then
        [Effect.serialLine hostSettingsNotice] else []) : List Effect).count
        (Effect.serialLine (mpcEchoLine e (st.getD e mpcDefault) cfg.includeFan)) = 0 := by
      split
      · rw [List.count_eq_zero]
        intro hmem
        simp only [List.mem_singleton] at hmem
        exact mpcEchoLine_ne_hostSettingsNotice e _ _ (by injection hmem)
      · rfl
    have h3 : (((List.range cfg.extruders).map (fun i =>
        Effect.serialLine (mpcEchoLine i (st.getD i mpcDefault) cfg.includeFan))).count
        (Effect.serialLine (mpcEchoLine e (st.getD e mpcDefault) cfg.includeFan))) = 1 := by
      apply List.count_eq_one_of_mem
      · exact (List.nodup_range cfg.extruders).map (echoEffect_inj st cfg.includeFan)
      · exact List.mem_map.mpr ⟨e, List.mem_range.mpr he, rfl⟩
    have h4 : ((if cfg.role = CanRole.toolhead ∧ true = true then
        [Effect.canSend (mpcCanLine (st.getD 0 mpcDefault) cfg.includeFan)] else []) :
        List Effect).count
        (Effect.serialLine (mpcEchoLine e (st.getD e mpcDefault) cfg.includeFan)) = 0 := by
      split
      · rw [List.count_eq_zero]
        intro hmem
        simp only [List.mem_singleton] at hmem
        exact absurd hmem (by simp)
      · rfl
    omega

theorem M306_report_line_canonical_witness :
    0 < tuneCfg.extruders ∧ tuneCfg.smallBuild = false ∧
      (mpcEchoLine 0 (exStOne.getD 0 mpcDefault) tuneCfg.includeFan =
        "  ".data ++ specCanonicalLine 0 (exStOne.getD 0 mpcDefault) tuneCfg.includeFan ∧
      (M306report tuneCfg exStOne true).count
        (Effect.serialLine (mpcEchoLine 0 (exStOne.getD 0 mpcDefault) tuneCfg.includeFan)) = 1) :=
  ⟨by decide, rfl, M306_report_line_canonical tuneCfg exStOne 0 (by decide) rfl⟩

/-- Is this effect a CAN transmission? -/
def isCanSendB : Effect → Bool
  | Effect.canSend _ => true
  | _ => false

/-- C8: in the toolhead role with `forReplay` true, the report transmits
exactly one CAN message, carrying element 0's record serialized in the
canonical line form truncated to the 100-character buffer bound — and
this is in addition to (not instead of) the per-element console lines,
which are all still emitted. -/
theorem M306_toolhead_replay_can_send (cfg : Cfg) (st : List MPC)
    (hrole : cfg.role = CanRole.toolhead) (hsb : cfg.smallBuild = false) :
    (M306report cfg st true).filter isCanSendB =
      [Effect.canSend (mpcCanLine (st.getD 0 mpcDefault) cfg.includeFan)] ∧
    mpcCanLine (st.getD 0 mpcDefault) cfg.includeFan =
      (specCanonicalLine 0 (st.getD 0 mpcDefault) cfg.includeFan).take 100 ∧
    ∀ e < cfg.extruders,
      Effect.serialLine (mpcEchoLine e (st.getD e mpcDefault) cfg.includeFan) ∈
        M306report cfg st true := by
  refine ⟨?_, ?_, ?_⟩
  · rw [M306report, if_neg (by rw [hsb]; exact Bool.false_ne_true)]
    rw [show ∀ (x : Effect) (l : List Effect), x :: l = [x] ++ l from fun x l => rfl]
    rw [List.filter_append, List.filter_append, List.filter_append]
    have h1 : ([Effect.serialLine headingLine] : List Effect).filter isCanSendB = [] := rfl
    have h2 : ((if cfg.role = CanRole.host ∧ true = true then
        [Effect.serialLine hostSettingsNotice] else []) : List Effect).filter
        isCanSendB = [] := by
      rw [if_neg]
      · rfl
      · rw [hrole]
        simp
    have h3 : ((List.range cfg.extruders).map (fun i =>
        Effect.serialLine (mpcEchoLine i (st.getD i mpcDefault) cfg.includeFan))).filter
        isCanSendB = [] := by
      rw [List.filter_eq_nil_iff]
      intro x hx
      rcases List.mem_map.mp hx with ⟨i, _, rfl⟩
      simp [isCanSendB]
    have h4 : ((if cfg.role = CanRole.toolhead ∧ true = true then
        [Effect.canSend (mpcCanLine (st.getD 0 mpcDefault) cfg.includeFan)] else []) :
        List Effect).filter isCanSendB =
        [Effect.canSend (mpcCanLine (st.getD 0 mpcDefault) cfg.includeFan)] := by
      rw [if_pos ⟨hrole, rfl⟩]
      rfl
    rw [h1, h2, h3, h4]
    rfl
  · rw [mpcCanLine, specCanonicalLine]
    simp only [List.append_assoc]
    rfl
  · intro e he
    rw [M306report, if_neg (by rw [hsb]; exact Bool.false_ne_true)]
    refine List.mem_cons_of_mem _ (List.mem_append_left _ (List.mem_append_right _ ?_))
    exact List.mem_map.mpr ⟨e, List.mem_range.mpr he, rfl⟩

def thCfg : Cfg := ⟨1, true, CanRole.toolhead, false⟩

theorem M306_toolhead_replay_can_send_witness :
    thCfg.role = CanRole.toolhead ∧ thCfg.smallBuild = false ∧
      ((M306report thCfg exStOne true).filter isCanSendB =
        [Effect.canSend (mpcCanLine (exStOne.getD 0 mpcDefault) thCfg.includeFan)] ∧
      mpcCanLine (exStOne.getD 0 mpcDefault) thCfg.includeFan =
        (specCanonicalLine 0 (exStOne.getD 0 mpcDefault) thCfg.includeFan).take 100 ∧
      ∀ e < thCfg.extruders,
        Effect.serialLine (mpcEchoLine e (exStOne.getD e mpcDefault) thCfg.includeFan) ∈
          M306report thCfg exStOne true) :=
  ⟨rfl, rfl, M306_toolhead_replay_can_send thCfg exStOne rfl rfl⟩

/-! ## Round-trip law (C9): tokenizing the canonical line -/

theorem fmtFixed_no_space (x : ℚ) (d : Nat) : ∀ c ∈ fmtFixed x d, c ≠ ' ' := by
  intro c hc
  rw [fmtFixed] at hc
  rcases List.mem_append.mp hc with h | h
  · rcases List.mem_append.mp h with h1 | h1
    · split at h1
      · simp only [List.mem_singleton] at h1
        subst h1
        decide
      · simp at h1
    · exact digChars_no_space _ c h1
  · split at h
    · simp at h
    · simp only [List.mem_cons] at h
      rcases h with h | h
      · subst h
        decide
      · rcases List.mem_append.mp h with h2 | h2
        · rw [List.eq_of_mem_replicate h2]
          decide
        · exact digChars_no_space _ c h2

/-- Join tokens with single blanks (the shape of the canonical line). -/
def joinSp : List Line → Line
  | [] => []
  | [t] => t
  | t :: ts => t ++ ' ' :: joinSp ts

theorem splitSp_joinSp (ts : List Line) (hne : ts ≠ [])
    (h : ∀ t ∈ ts, ∀ c ∈ t, c ≠ ' ') :
    splitSp (joinSp ts) = ts := by
  induction ts with
  | nil => exact absurd rfl hne
  | cons t rest ih =>
    cases rest with
    | nil => exact splitSp_no_sp t (h t (by simp))
    | cons u us =>
      rw [show joinSp (t :: u :: us) = t ++ ' ' :: joinSp (u :: us) from rfl,
        splitSp_append_sp _ _ (h t (by simp)),
        ih (by simp) (fun x hx => h x (by simp [hx]))]

/-- The blank-separated tokens of the canonical settings line. -/
def canonTokens (e : Nat) (m : MPC) (fan : Bool) : List Line :=
  ["M306".data, 'E' :: digChars e,
   'P' :: fmtFixed m.heater_power 2,
   'C' :: fmtFixed m.block_heat_capacity 2,
   'R' :: fmtFixed m.sensor_responsiveness 4,
   'A' :: fmtFixed m.ambient_xfer_coeff_fan0 4] ++
  (if fan then ['F' :: fmtFixed m.fanCoefficient 4] else []) ++
  ['H' :: fmtFixed m.filament_heat_capacity_permm 4]

theorem specCanonicalLine_eq_joinSp (e : Nat) (m : MPC) (fan : Bool) :
    specCanonicalLine e m fan = joinSp (canonTokens e m fan) := by
  cases fan <;>
    · rw [specCanonicalLine, canonTokens]
      simp only [if_true, if_false, List.append_assoc]
      rfl

theorem canonTokens_no_sp (e : Nat) (m : MPC) (fan : Bool) :
    ∀ t ∈ canonTokens e m fan, ∀ c ∈ t, c ≠ ' ' := by
  intro t ht
  rw [canonTokens] at ht
  simp only [List.mem_append, List.mem_cons, List.mem_singleton,
    List.not_mem_nil, or_false] at ht
  have hdig : ∀ (ch : Char) (l : Line), ch ≠ ' ' → (∀ c ∈ l, c ≠ ' ') →
      ∀ c ∈ ch :: l, c ≠ ' ' := by
    intro ch l hch hl c hc
    rcases List.mem_cons.mp hc with h | h
    · rw [h]; exact hch
    · exact hl c h
  rcases ht with ((h | h | h | h | h | h) | h) | h
  · rw [h]; decide
  · rw [h]; exact hdig _ _ (by decide) (digChars_no_space e)
  · rw [h]; exact hdig _ _ (by decide) (fmtFixed_no_space _ _)
  · rw [h]; exact hdig _ _ (by decide) (fmtFixed_no_space _ _)
  · rw [h]; exact hdig _ _ (by decide) (fmtFixed_no_space _ _)
  · rw [h]; exact hdig _ _ (by decide) (fmtFixed_no_space _ _)
  · split at h
    · simp only [List.mem_singleton] at h
      rw [h]; exact hdig _ _ (by decide) (fmtFixed_no_space _ _)
    · simp at h
  · rw [h]; exact hdig _ _ (by decide) (fmtFixed_no_space _ _)

theorem addField_E (c : Cmd) (e : Nat) :
    addField c ('E' :: digChars e) = { c with E := some e } := by
  show { c with E := (digsOfChars (digChars e)).map valOfDigs } = _
  rw [digsOfChars_digCharsOf]
  simp [valOfDigs_digsOf]

theorem addField_P (c : Cmd) (x : ℚ) (d : Nat) :
    addField c ('P' :: fmtFixed x d) = { c with P := some (some (fixedVal x d)) } := by
  show { c with P := some (parseFixed (fmtFixed x d)) } = _
  rw [parseFixed_fmtFixed]

theorem addField_C (c : Cmd) (x : ℚ) (d : Nat) :
    addField c ('C' :: fmtFixed x d) = { c with C := some (some (fixedVal x d)) } := by
  show { c with C := some (parseFixed (fmtFixed x d)) } = _
  rw [parseFixed_fmtFixed]

theorem addField_R (c : Cmd) (x : ℚ) (d : Nat) :
    addField c ('R' :: fmtFixed x d) = { c with R := some (some (fixedVal x d)) } := by
  show { c with R := some (parseFixed (fmtFixed x d)) } = _
  rw [parseFixed_fmtFixed]

theorem addField_A (c : Cmd) (x : ℚ) (d : Nat) :
    addField c ('A' :: fmtFixed x d) = { c with A := some (some (fixedVal x d)) } := by
  show { c with A := some (parseFixed (fmtFixed x d)) } = _
  rw [parseFixed_fmtFixed]

theorem addField_F (c : Cmd) (x : ℚ) (d : Nat) :
    addField c ('F' :: fmtFixed x d) = { c with F := some (some (fixedVal x d)) } := by
  show { c with F := some (parseFixed (fmtFixed x d)) } = _
  rw [parseFixed_fmtFixed]

theorem addField_H (c : Cmd) (x : ℚ) (d : Nat) :
    addField c ('H' :: fmtFixed x d) = { c with H := some (some (fixedVal x d)) } := by
  show { c with H := some (parseFixed (fmtFixed x d)) } = _
  rw [parseFixed_fmtFixed]

/-- Re-parsing the canonical settings line yields the command whose
field values are the fixed-decimal roundings of the record's fields. -/
theorem cmdOfLine_canonical (e : Nat) (m : MPC) (fan : Bool) :
    cmdOfLine (specCanonicalLine e m fan) = some
      { E := some e, T := false, S := none,
        A := some (some (fixedVal m.ambient_xfer_coeff_fan0 4)),
        C := some (some (fixedVal m.block_heat_capacity 2)),
        F := if fan then some (some (fixedVal m.fanCoefficient 4)) else none,
        P := some (some (fixedVal m.heater_power 2)),
        R := some (some (fixedVal m.sensor_responsiveness 4)),
        H := some (some (fixedVal m.filament_heat_capacity_permm 4)) } := by
  rw [cmdOfLine, specCanonicalLine_eq_joinSp,
    splitSp_joinSp _ (by cases fan <;> simp [canonTokens]) (canonTokens_no_sp e m fan)]
  cases fan
  · rw [show canonTokens e m false =
      "M306".data :: ['E' :: digChars e,
        'P' :: fmtFixed m.heater_power 2,
        'C' :: fmtFixed m.block_heat_capacity 2,
        'R' :: fmtFixed m.sensor_responsiveness 4,
        'A' :: fmtFixed m.ambient_xfer_coeff_fan0 4,
        'H' :: fmtFixed m.filament_heat_capacity_permm 4] from rfl]
    simp only [List.foldl_cons, List.foldl_nil, addField_E, addField_P, addField_C,
      addField_R, addField_A, addField_H]
    simp only [if_true]
    rfl
  · rw [show canonTokens e m true =
      "M306".data :: ['E' :: digChars e,
        'P' :: fmtFixed m.heater_power 2,
        'C' :: fmtFixed m.block_heat_capacity 2,
        'R' :: fmtFixed m.sensor_responsiveness 4,
        'A' :: fmtFixed m.ambient_xfer_coeff_fan0 4,
        'F' :: fmtFixed m.fanCoefficient 4,
        'H' :: fmtFixed m.filament_heat_capacity_permm 4] from rfl]
    simp only [List.foldl_cons, List.foldl_nil, addField_E, addField_P, addField_C,
      addField_R, addField_A, addField_F, addField_H]
    simp only [if_true]
    rfl

theorem effIndex_of_E (cfg : Cfg) (act : Nat) (cmd : Cmd) (e : Nat)
    (hE : cmd.E = some e) (he : e < cfg.extruders) (hN : cfg.extruders ≤ 256) :
    effIndex cfg act cmd = e := by
  rw [effIndex, hE]
  by_cases h1 : 1 < cfg.extruders
  · rw [if_pos h1]
    show e % 256 = e
    exact Nat.mod_eq_of_lt (lt_of_lt_of_le he hN)
  · rw [if_neg h1]
    show 0 % 256 = e
    omega

theorem applyCmdFields_all_true (p c r a f h : ℚ) (eo s : Option Nat) (m : MPC) :
    applyCmdFields true
      ⟨eo, false, s, some (some a), some (some c), some (some f),
        some (some p), some (some r), some (some h)⟩ m =
      ⟨p, c, r, a, a + f, h⟩ := rfl

theorem applyCmdFields_all_false (p c r a h : ℚ) (eo s : Option Nat)
    (fo : Option (Option ℚ)) (m : MPC) :
    applyCmdFields false
      ⟨eo, false, s, some (some a), some (some c), fo,
        some (some p), some (some r), some (some h)⟩ m =
      ⟨p, c, r, a, m.ambient_xfer_coeff_fan_full, h⟩ := rfl

/-- The six stored fields agree within their declared decimal precision:
2 decimal places for power and capacity, 4 for the rest. -/
def fieldsWithin (m2 m1 : MPC) : Prop :=
  |m2.heater_power - m1.heater_power| ≤ 1 / 10 ^ 2 ∧
  |m2.block_heat_capacity - m1.block_heat_capacity| ≤ 1 / 10 ^ 2 ∧
  |m2.sensor_responsiveness - m1.sensor_responsiveness| ≤ 1 / 10 ^ 4 ∧
  |m2.ambient_xfer_coeff_fan0 - m1.ambient_xfer_coeff_fan0| ≤ 1 / 10 ^ 4 ∧
  |m2.ambient_xfer_coeff_fan_full - m1.ambient_xfer_coeff_fan_full| ≤ 1 / 10 ^ 4 ∧
  |m2.filament_heat_capacity_permm - m1.filament_heat_capacity_permm| ≤ 1 / 10 ^ 4

/-- C9 (round-trip law): after any field-update command, re-parsing the
element's canonical settings line through the external tokenizer and
re-applying it through the handler reproduces every Model Store field of
that element within its declared decimal precision, and the replay
itself produces no output. -/
theorem M306_roundtrip_within_precision (cfg : Cfg) (act : Nat) (st : List MPC)
    (cmd : Cmd) (_hT : cmd.T = false) (hN : cfg.extruders ≤ 256)
    (he : effIndex cfg act cmd < cfg.extruders)
    (hlen : st.length = cfg.extruders) :
    ∃ cmd2 : Cmd,
      cmdOfLine (specCanonicalLine (effIndex cfg act cmd)
        ((M306run cfg act st cmd).1.getD (effIndex cfg act cmd) mpcDefault)
        cfg.includeFan) = some cmd2 ∧
      (M306run cfg act (M306run cfg act st cmd).1 cmd2).2 = [] ∧
      fieldsWithin
        ((M306run cfg act (M306run cfg act st cmd).1 cmd2).1.getD
          (effIndex cfg act cmd) mpcDefault)
        ((M306run cfg act st cmd).1.getD (effIndex cfg act cmd) mpcDefault) := by
  have hlen1 : ((M306run cfg act st cmd).1).length = cfg.extruders := by
    rw [M306run_fst_length]
    exact hlen
  set E := effIndex cfg act cmd with hE
  set st1 := (M306run cfg act st cmd).1 with hst1
  set m1 := st1.getD E mpcDefault with hm1
  cases hfan : cfg.includeFan
  · refine ⟨_, cmdOfLine_canonical E m1 false, ?_⟩
    have heff2 : effIndex cfg act
        { E := some E, T := false, S := none,
          A := some (some (fixedVal m1.ambient_xfer_coeff_fan0 4)),
          C := some (some (fixedVal m1.block_heat_capacity 2)),
          F := if false = true then some (some (fixedVal m1.fanCoefficient 4)) else none,
          P := some (some (fixedVal m1.heater_power 2)),
          R := some (some (fixedVal m1.sensor_responsiveness 4)),
          H := some (some (fixedVal m1.filament_heat_capacity_permm 4)) } = E :=
      effIndex_of_E cfg act _ E rfl he hN
    have hrun2 : M306run cfg act st1
        { E := some E, T := false, S := none,
          A := some (some (fixedVal m1.ambient_xfer_coeff_fan0 4)),
          C := some (some (fixedVal m1.block_heat_capacity 2)),
          F := if false = true then some (some (fixedVal m1.fanCoefficient 4)) else none,
          P := some (some (fixedVal m1.heater_power 2)),
          R := some (some (fixedVal m1.sensor_responsiveness 4)),
          H := some (some (fixedVal m1.filament_heat_capacity_permm 4)) } =
        (updateAt st1 E (applyCmdFields cfg.includeFan
          { E := some E, T := false, S := none,
            A := some (some (fixedVal m1.ambient_xfer_coeff_fan0 4)),
            C := some (some (fixedVal m1.block_heat_capacity 2)),
            F := if false = true then some (some (fixedVal m1.fanCoefficient 4)) else none,
            P := some (some (fixedVal m1.heater_power 2)),
            R := some (some (fixedVal m1.sensor_responsiveness 4)),
            H := some (some (fixedVal m1.filament_heat_capacity_permm 4)) }), []) := by
      rw [M306run, heff2, if_neg (not_le.mpr he),
        if_neg (fun hcon => Bool.false_ne_true hcon)]
      rfl
    constructor
    · rw [hrun2]
    · rw [hrun2]
      show fieldsWithin ((updateAt st1 E _).getD E mpcDefault) m1
      rw [getD_updateAt _ _ _ _ (by rw [hlen1]; exact he), hfan, ← hm1]
      rw [applyCmdFields_all_false]
      refine ⟨?_, ?_, ?_, ?_, ?_, ?_⟩
      · exact fixedVal_close m1.heater_power 2
      · exact fixedVal_close m1.block_heat_capacity 2
      · exact fixedVal_close m1.sensor_responsiveness 4
      · exact fixedVal_close m1.ambient_xfer_coeff_fan0 4
      · show |m1.ambient_xfer_coeff_fan_full - m1.ambient_xfer_coeff_fan_full| ≤ 1 / 10 ^ 4
        simp
      · exact fixedVal_close m1.filament_heat_capacity_permm 4
  · refine ⟨_, cmdOfLine_canonical E m1 true, ?_⟩
    have heff2 : effIndex cfg act
        { E := some E, T := false, S := none,
          A := some (some (fixedVal m1.ambient_xfer_coeff_fan0 4)),
          C := some (some (fixedVal m1.block_heat_capacity 2)),
          F := if true = true then some (some (fixedVal m1.fanCoefficient 4)) else none,
          P := some (some (fixedVal m1.heater_power 2)),
          R := some (some (fixedVal m1.sensor_responsiveness 4)),
          H := some (some (fixedVal m1.filament_heat_capacity_permm 4)) } = E :=
      effIndex_of_E cfg act _ E rfl he hN
    have hrun2 : M306run cfg act st1
        { E := some E, T := false, S := none,
          A := some (some (fixedVal m1.ambient_xfer_coeff_fan0 4)),
          C := some (some (fixedVal m1.block_heat_capacity 2)),
          F := if true = true then some (some (fixedVal m1.fanCoefficient 4)) else none,
          P := some (some (fixedVal m1.heater_power 2)),
          R := some (some (fixedVal m1.sensor_responsiveness 4)),
          H := some (some (fixedVal m1.filament_heat_capacity_permm 4)) } =
        (updateAt st1 E (applyCmdFields cfg.includeFan
          { E := some E, T := false, S := none,
            A := some (some (fixedVal m1.ambient_xfer_coeff_fan0 4)),
            C := some (some (fixedVal m1.block_heat_capacity 2)),
            F := if true = true then some (some (fixedVal m1.fanCoefficient 4)) else none,
            P := some (some (fixedVal m1.heater_power 2)),
            R := some (some (fixedVal m1.sensor_responsiveness 4)),
            H := some (some (fixedVal m1.filament_heat_capacity_permm 4)) }), []) := by
      rw [M306run, heff2, if_neg (not_le.mpr he),
        if_neg (fun hcon => Bool.false_ne_true hcon)]
      rfl
    constructor
    · rw [hrun2]
    · rw [hrun2]
      show fieldsWithin ((updateAt st1 E _).getD E mpcDefault) m1
      rw [getD_updateAt _ _ _ _ (by rw [hlen1]; exact he), hfan, ← hm1]
      rw [show (if true = true then some (some (fixedVal m1.fanCoefficient 4)) else none) =
        some (some (fixedVal m1.fanCoefficient 4)) from rfl]
      rw [applyCmdFields_all_true]
      refine ⟨?_, ?_, ?_, ?_, ?_, ?_⟩
      · exact fixedVal_close m1.heater_power 2
      · exact fixedVal_close m1.block_heat_capacity 2
      · exact fixedVal_close m1.sensor_responsiveness 4
      · exact fixedVal_close m1.ambient_xfer_coeff_fan0 4
      · show |fixedVal m1.ambient_xfer_coeff_fan0 4 + fixedVal m1.fanCoefficient 4 -
          m1.ambient_xfer_coeff_fan_full| ≤ 1 / 10 ^ 4
        have h1 := abs_fixedVal_sub_le m1.ambient_xfer_coeff_fan0 4
        have h2 := abs_fixedVal_sub_le m1.fanCoefficient 4
        have hdecomp : m1.ambient_xfer_coeff_fan_full =
            m1.ambient_xfer_coeff_fan0 + m1.fanCoefficient := by
          rw [MPC.fanCoefficient]
          ring
        have hsplit : fixedVal m1.ambient_xfer_coeff_fan0 4 + fixedVal m1.fanCoefficient 4 -
            (m1.ambient_xfer_coeff_fan0 + m1.fanCoefficient) =
            (fixedVal m1.ambient_xfer_coeff_fan0 4 - m1.ambient_xfer_coeff_fan0) +
            (fixedVal m1.fanCoefficient 4 - m1.fanCoefficient) := by
          ring
        rw [hdecomp, hsplit]
        calc |(fixedVal m1.ambient_xfer_coeff_fan0 4 - m1.ambient_xfer_coeff_fan0) +
            (fixedVal m1.fanCoefficient 4 - m1.fanCoefficient)|
            ≤ |fixedVal m1.ambient_xfer_coeff_fan0 4 - m1.ambient_xfer_coeff_fan0| +
              |fixedVal m1.fanCoefficient 4 - m1.fanCoefficient| := abs_add _ _
          _ ≤ 1 / (2 * 10 ^ 4) + 1 / (2 * 10 ^ 4) := add_le_add h1 h2
          _ = 1 / 10 ^ 4 := by norm_num
      · exact fixedVal_close m1.filament_heat_capacity_permm 4

theorem M306_roundtrip_within_precision_witness :
    cmdEmpty.T = false ∧ tuneCfg.extruders ≤ 256 ∧
      effIndex tuneCfg 0 cmdEmpty < tuneCfg.extruders ∧
      exStOne.length = tuneCfg.extruders ∧
      ∃ cmd2 : Cmd,
        cmdOfLine (specCanonicalLine (effIndex tuneCfg 0 cmdEmpty)
          ((M306run tuneCfg 0 exStOne cmdEmpty).1.getD (effIndex tuneCfg 0 cmdEmpty) mpcDefault)
          tuneCfg.includeFan) = some cmd2 ∧
        (M306run tuneCfg 0 (M306run tuneCfg 0 exStOne cmdEmpty).1 cmd2).2 = [] ∧
        fieldsWithin
          ((M306run tuneCfg 0 (M306run tuneCfg 0 exStOne cmdEmpty).1 cmd2).1.getD
            (effIndex tuneCfg 0 cmdEmpty) mpcDefault)
          ((M306run tuneCfg 0 exStOne cmdEmpty).1.getD (effIndex tuneCfg 0 cmdEmpty) mpcDefault) :=
  ⟨rfl, by decide, by decide, rfl,
    M306_roundtrip_within_precision tuneCfg 0 exStOne cmdEmpty rfl (by decide)
      (by decide) rfl⟩
